import Mathlib

/-!
# CompileIQ telemetry core: shallow embedding and verification

This file embeds the telemetry-extraction-and-selection core of the
CompileIQ repository (the Python sources `csv/csv_generator.py`,
`xml/xml_generator.py`, `app/xml_java/xml_java.py` and
`backup/app/client.py`) as executable Lean definitions and proves, or
refutes, the specified properties of that core.

Modelling conventions:

* Python strings are modelled as `List Char` internally and `String` at the
  interface; the relevant Python string operations (`strip`, `splitlines`,
  `split(sep, 1)`, `startswith`, substring containment) are embedded
  directly.  Character classes are the ASCII fragments of Python's `\s`,
  `\d`, `\w`; every input appearing in the repository and in the claims is
  ASCII.
* The two regular expressions applied by the sources via `re.match` are
  embedded as priority-ordered backtracking matchers: each quantifier
  enumerates its alternatives greedily (longest first) and the first
  complete match — exactly the one Python's backtracking engine commits
  to — is taken.  `re.match` anchors at the start of the string only;
  trailing text is permitted.
* The compile/run harness calls external processes (`javac`, `java`).  A
  harness invocation is modelled by a `HarnessOutcome` record carrying the
  environment-determined data (compiler exit status and diagnostics, run
  stdout/stderr, GC log contents, measured wall-clock duration); the
  embedded functions compute exactly what the Python code computes from
  those data.  Wall-clock durations are modelled as exact integer
  milliseconds; Python's binary floating point is not modelled, the
  decimal formatting/parsing pair is modelled by exact decimal arithmetic.
-/

namespace CompileIQ

/-! ## Python string primitives -/

/-- ASCII fragment of Python's regex class `\s` (also the characters
`str.strip` removes and `str.isspace` accepts, restricted to ASCII). -/
def isPySpace (c : Char) : Bool :=
  c = ' ' || c = '\t' || c = '\n' || c = '\r' || c = '\x0b' || c = '\x0c'

/-- ASCII fragment of Python's regex class `\d`. -/
def isPyDigit (c : Char) : Bool :=
  c.isDigit

/-- The character class `[\w.$<>:()]` of the JIT compilation-line regex
(ASCII fragment of `\w`). -/
def isMethodChar (c : Char) : Bool :=
  c.isAlphanum || c = '_' || c = '.' || c = '$' || c = '<' || c = '>' ||
  c = ':' || c = '(' || c = ')'

/-- Python `str.strip()`: drop leading and trailing whitespace. -/
def pyStrip (cs : List Char) : List Char :=
  ((cs.dropWhile isPySpace).reverse.dropWhile isPySpace).reverse

/-- Python `str.splitlines()` restricted to the line breaks occurring in
this repository's data: `\n`, `\r\n` and `\r`.  A trailing line break
produces no empty final line and the empty string has no lines. -/
def pySplitlinesAux : List Char → List Char → List (List Char)
  | [], acc => if acc.isEmpty then [] else [acc.reverse]
  | '\r' :: '\n' :: rest, acc => acc.reverse :: pySplitlinesAux rest []
  | '\n' :: rest, acc => acc.reverse :: pySplitlinesAux rest []
  | '\r' :: rest, acc => acc.reverse :: pySplitlinesAux rest []
  | c :: rest, acc => pySplitlinesAux rest (c :: acc)

/-- Python `str.splitlines()` (see `pySplitlinesAux`). -/
def pySplitlines (cs : List Char) : List (List Char) :=
  pySplitlinesAux cs []

/-- Python substring containment `needle in hay`. -/
def containsSeq (needle : List Char) : List Char → Bool
  | [] => needle.isEmpty
  | c :: rest => needle.isPrefixOf (c :: rest) || containsSeq needle rest

/-- Python `s.split(sep, 1)`: the part before the first separator and,
when the separator occurs, the part after it. -/
def splitFirst (sep : Char) : List Char → List Char × Option (List Char)
  | [] => ([], none)
  | c :: rest =>
    if c = sep then ([], some rest)
    else
      let (a, b) := splitFirst sep rest
      (c :: a, b)

/-- Python `int()` applied to a non-empty string of decimal digits. -/
def digitsToNat (cs : List Char) : Nat :=
  cs.foldl (fun n c => n * 10 + (c.toNat - 48)) 0

/-- Recursion core of `countSub`; the fuel bounds the scan length so the
recursion is structural (and hence reduces in the kernel). -/
def countSubAux (needle : List Char) : Nat → List Char → Nat
  | 0, _ => 0
  | _ + 1, [] => 0
  | fuel + 1, c :: rest =>
    if needle.isPrefixOf (c :: rest) then
      1 + countSubAux needle fuel (rest.drop (needle.length - 1))
    else
      countSubAux needle fuel rest

/-- Python `len(re.findall(needle, hay))` for a literal needle:
count non-overlapping occurrences, scanning left to right. -/
def countSub (needle : List Char) (cs : List Char) : Nat :=
  countSubAux needle cs.length cs

/-! ## Greedy backtracking regex pieces

Each primitive returns the list of `(consumed, remainder)` alternatives in
the priority order of Python's backtracking engine: greedy quantifiers
produce the longest alternative first.  Sequencing alternatives with
`List.bind` therefore enumerates complete matches in engine order, and the
head of the final list is the match Python commits to. -/

/-- Alternatives of `cls*`: every split of a prefix of the maximal
`cls`-run, longest first. -/
def splitsStar (cls : Char → Bool) (cs : List Char) : List (List Char × List Char) :=
  (List.range ((cs.takeWhile cls).length + 1)).reverse.map
    (fun k => (cs.take k, cs.drop k))

/-- Alternatives of `cls+`: as `splitsStar`, excluding the empty split. -/
def splitsPlus (cls : Char → Bool) (cs : List Char) : List (List Char × List Char) :=
  (splitsStar cls cs).filter (fun p => !p.1.isEmpty)

/-- Alternatives of the optional group `(cls+)?`: the `cls+` alternatives
first (greedy), then the empty alternative capturing nothing. -/
def splitsOptPlus (cls : Char → Bool) (cs : List Char) :
    List (Option (List Char) × List Char) :=
  ((splitsPlus cls cs).map (fun p => (some p.1, p.2))) ++ [(none, cs)]

/-- Alternatives of an optional single-character class `[..]?`. -/
def splitsOptChar (cls : Char → Bool) : List Char → List (Option Char × List Char)
  | [] => [(none, [])]
  | c :: rest =>
    if cls c then [(some c, rest), (none, c :: rest)] else [(none, c :: rest)]

/-- Alternatives of a literal character. -/
def litChar (c : Char) : List Char → List (Unit × List Char)
  | [] => []
  | c' :: rest => if c' = c then [((), rest)] else []

/-- Alternatives of a literal character sequence. -/
def litSeq (w : List Char) (cs : List Char) : List (Unit × List Char) :=
  if w.isPrefixOf cs then [((), cs.drop w.length)] else []

/-! ## The two regular expressions of the sources -/

/-- Captured groups of the JIT compilation-line regex
`^\s*(\d+)\s+(\d+)?\s*([!n]?)\s*(\d+)\s+([\w.$<>:()]+)\s+\((\d+)\s+bytes\)`
as they appear in `csv/csv_generator.py`, `xml/xml_generator.py` and
`app/xml_java/xml_java.py`: compilation id, optional bytecode index,
optional one-character flag, tier level, qualified method name and
bytecode size. -/
structure JitGroups where
  compId : List Char
  bci : Option (List Char)
  flag : Option Char
  level : List Char
  methodName : List Char
  byteSize : List Char
deriving DecidableEq, Repr

/-- All complete matches of the JIT regex against `cs` (anchored at the
start, trailing text permitted), in the priority order of Python's
engine. -/
def jitCand (cs : List Char) : List JitGroups :=
  (splitsStar isPySpace cs).flatMap fun p0 =>
  (splitsPlus isPyDigit p0.2).flatMap fun p1 =>
  (splitsPlus isPySpace p1.2).flatMap fun p2 =>
  (splitsOptPlus isPyDigit p2.2).flatMap fun p3 =>
  (splitsStar isPySpace p3.2).flatMap fun p4 =>
  (splitsOptChar (fun c => c = '!' || c = 'n') p4.2).flatMap fun p5 =>
  (splitsStar isPySpace p5.2).flatMap fun p6 =>
  (splitsPlus isPyDigit p6.2).flatMap fun p7 =>
  (splitsPlus isPySpace p7.2).flatMap fun p8 =>
  (splitsPlus isMethodChar p8.2).flatMap fun p9 =>
  (splitsPlus isPySpace p9.2).flatMap fun p10 =>
  (litChar '(' p10.2).flatMap fun p11 =>
  (splitsPlus isPyDigit p11.2).flatMap fun p12 =>
  (splitsPlus isPySpace p12.2).flatMap fun p13 =>
  (litSeq ['b', 'y', 't', 'e', 's'] p13.2).flatMap fun p14 =>
  (litChar ')' p14.2).map fun _ =>
    ⟨p1.1, p3.1, p5.1, p7.1, p9.1, p12.1⟩

/-- `re.match` of the JIT regex: the first complete match, if any. -/
def jitMatch (cs : List Char) : Option JitGroups :=
  (jitCand cs).head?

/-- All complete matches of the program-output filter regex `^\s*\d+\s`
(from `csv/csv_generator.py` line 63 and `xml/xml_generator.py` line 45),
in engine priority order; each alternative is the remainder after the
matched prefix. -/
def pcCand (cs : List Char) : List (List Char) :=
  (splitsStar isPySpace cs).flatMap fun p0 =>
  (splitsPlus isPyDigit p0.2).flatMap fun p1 =>
  match p1.2 with
  | [] => []
  | c :: rest => if isPySpace c then [rest] else []

/-- Truthiness of `re.match(r"^\s*\d+\s", cs)`. -/
def pcMatch (cs : List Char) : Bool :=
  !(pcCand cs).isEmpty

/-! ## Diagnostic parsers

These embed, line for line, the pure text processing of
`csv/csv_generator.py`, `xml/xml_generator.py` and
`app/xml_java/xml_java.py`. -/

/-- The literal `"Exception"` searched for by `parse_errors`. -/
def excMarker : List Char := "Exception".toList

/-- The frame marker `"at "` searched for by `parse_errors`. -/
def atMarker : List Char := "at ".toList

/-- State of the `parse_errors` scan: `error_type` and `message` are
`[]` while unset, mirroring the falsiness of both `None` and `""` in the
Python conditions `not error_type` and `if error_type:`. -/
structure ErrState where
  et : List Char
  msg : List Char
  frames : List (List Char)
deriving DecidableEq, Repr

/-- One iteration of the `parse_errors` loop (identical in
`csv/csv_generator.py` lines 182-188, `xml/xml_generator.py` lines
124-130 and `app/xml_java/xml_java.py` lines 100-106). -/
def parseErrorsStep (st : ErrState) (line : List Char) : ErrState :=
  if containsSeq excMarker line && st.et.isEmpty then
    let (p0, p1) := splitFirst ':' line
    { st with
      et := pyStrip p0
      msg := match p1 with | some t => pyStrip t | none => [] }
  else if atMarker.isPrefixOf (pyStrip line) then
    { st with frames := st.frames ++ [pyStrip line] }
  else
    st

/-- `parse_errors` over an already split list of stderr lines. -/
def parseErrorsLines (lines : List (List Char)) : ErrState :=
  lines.foldl parseErrorsStep ⟨[], [], []⟩

/-- `parse_errors(stderr_text)`: returns
`(error_type, message or "", stacktrace)`; `error_type = []` models the
falsy results `None`/`""`. -/
def parse_errors (stderr_text : String) : List Char × List Char × List (List Char) :=
  let st := parseErrorsLines (pySplitlines stderr_text.toList)
  (st.et, st.msg, st.frames)

/-- One data row of `errors.csv` (`csv/csv_generator.py` lines 117-128);
`frameIdx = none` models the empty `frame_index`/`frame_text` cells of the
no-stacktrace row. -/
structure ErrorRow where
  error_type : String
  message : String
  frameIdx : Option Nat
  frameText : String
deriving DecidableEq, Repr

/-- The data rows written to `errors.csv`: none when `error_type` is
falsy, one row per frame when a stacktrace was collected, a single row
with empty frame cells otherwise. -/
def errorsTable (stderr_text : String) : List ErrorRow :=
  let (et, msg, st) := parse_errors stderr_text
  if et.isEmpty then []
  else if st.isEmpty then [⟨⟨et⟩, ⟨msg⟩, none, ""⟩]
  else st.enum.map fun p => ⟨⟨et⟩, ⟨msg⟩, some p.1, ⟨p.2⟩⟩

/-- GC log read-back (`csv/csv_generator.py` lines 54-58, identical in
the XML variants): the stripped form of every line whose stripped form is
non-empty, in file order. -/
def gc_events_of (log : String) : List String :=
  (pySplitlines log.toList).filterMap fun l =>
    if (pyStrip l).isEmpty then none else some ⟨pyStrip l⟩

/-- The data rows of `gc_events.csv` (`csv/csv_generator.py` lines
130-136): `enumerate(gc_events)`. -/
def gcTable (log : String) : List (Nat × String) :=
  (gc_events_of log).enum

/-- `prog_lines` (`csv/csv_generator.py` lines 62-64,
`xml/xml_generator.py` lines 44-45): the stdout lines whose stripped form
does not match `^\s*\d+\s`, original text preserved. -/
def prog_lines (stdout_text : String) : List (List Char) :=
  (pySplitlines stdout_text.toList).filter fun l => !pcMatch (pyStrip l)

/-- The data rows of `program_output.csv` (`csv/csv_generator.py` lines
65-70): `enumerate(prog_lines, start=1)`. -/
def programOutputRows (stdout_text : String) : List (Nat × List Char) :=
  (prog_lines stdout_text).enum.map fun p => (p.1 + 1, p.2)

/-- One compilation event as stored by `csv/csv_generator.py` lines 83-86
and `xml/xml_generator.py` lines 86-94: the dict
`{"id": comp_id, "level": level, "bytes": bytecode, "flag": flag or ""}`
(the optional bytecode-index group is dropped). -/
structure JitEvent where
  id : String
  level : String
  bytes : String
  flag : String
deriving DecidableEq, Repr

/-- The flag group as the code stores it: `flag or ""`. -/
def flagStr : Option Char → String
  | some c => ⟨[c]⟩
  | none => ""

/-- `methods.setdefault(method, []).append(ev)` on an insertion-ordered
dict represented as an association list with distinct keys. -/
def addEvent : List (String × List JitEvent) → String → JitEvent →
    List (String × List JitEvent)
  | [], k, e => [(k, [e])]
  | (k', es) :: rest, k, e =>
    if k' = k then (k', es ++ [e]) :: rest
    else (k', es) :: addEvent rest k e

/-- One iteration of the `methods` accumulation loop
(`csv/csv_generator.py` lines 80-86): match the stripped line against the
JIT regex and, on success, append the event under its method name. -/
def methodsStep (acc : List (String × List JitEvent)) (l : List Char) :
    List (String × List JitEvent) :=
  match jitMatch (pyStrip l) with
  | some g => addEvent acc ⟨g.methodName⟩ ⟨⟨g.compId⟩, ⟨g.level⟩, ⟨g.byteSize⟩, flagStr g.flag⟩
  | none => acc

/-- The `methods` dict of `csv/csv_generator.py` lines 79-86 (and
`xml/xml_generator.py` lines 81-94): one entry per distinct method name,
holding that method's compilation events in stdout order. -/
def methodsOf (stdout_text : String) : List (String × List JitEvent) :=
  (pySplitlines stdout_text.toList).foldl methodsStep []

/-- `sum(int(c["bytes"]) for c in comps)`. -/
def totalBytesOf (es : List JitEvent) : Nat :=
  (es.map fun e => digitsToNat e.bytes.toList).sum

/-- One data row of `jit_compilations.csv` (`csv/csv_generator.py` lines
91-115). -/
structure JitRow where
  method : String
  compilations : Nat
  total_bytes : Nat
  comp_id : String
  level : String
  bytes : String
  special : String
deriving DecidableEq, Repr

/-- The row written for event `e` of method `m` whose event list is
`es`. -/
def rowOf (m : String) (es : List JitEvent) (e : JitEvent) : JitRow :=
  ⟨m, es.length, totalBytesOf es, e.id, e.level, e.bytes, e.flag⟩

/-- The data rows of `jit_compilations.csv` built from a methods dict:
one row per individual compilation event, method-level aggregates
repeated on every row of the method (`csv/csv_generator.py` lines
102-115). -/
def tableOf (ms : List (String × List JitEvent)) : List JitRow :=
  ms.flatMap fun p => p.2.map (rowOf p.1 p.2)

/-- The data rows of `jit_compilations.csv` for a run's stdout. -/
def jitTable (stdout_text : String) : List JitRow :=
  tableOf (methodsOf stdout_text)

/-- `parse_jit_methods` of `app/xml_java/xml_java.py` lines 68-86: per
method name, `{"compilations": count, "bytes": summed bytecode size}`,
in first-appearance order. -/
def parse_jit_methods (stdout_text : String) : List (String × Nat × Nat) :=
  (methodsOf stdout_text).map fun p => (p.1, p.2.length, totalBytesOf p.2)

/-! ## Harness, serializer and evaluation loop -/

/-- Recursion core of `natDigits`; the fuel dominates the number so the
recursion is structural (and hence reduces in the kernel). -/
def natDigitsAux : Nat → Nat → List Char
  | 0, _ => []
  | fuel + 1, n =>
    if n < 10 then [Nat.digitChar n]
    else natDigitsAux fuel (n / 10) ++ [Nat.digitChar (n % 10)]

/-- Decimal digits of a natural number, most significant first. -/
def natDigits (n : Nat) : List Char :=
  natDigitsAux (n + 1) n

/-- `f"{sec:.3f}"` for `sec = millis / 1000` (exact decimal model of the
formatting in `app/xml_java/xml_java.py` line 50): integer part, a dot
and a three-digit fraction. -/
def format3 (millis : Nat) : String :=
  ⟨natDigits (millis / 1000) ++ '.' ::
    (if millis % 1000 < 10 then '0' :: '0' :: natDigits (millis % 1000)
     else if millis % 1000 < 100 then '0' :: natDigits (millis % 1000)
     else natDigits (millis % 1000))⟩

/-- `int(float(val) * 1000)` applied to the `"q.rrr"` strings produced by
`format3` (`backup/app/client.py` line 207), modelled by exact decimal
arithmetic. -/
def parseExecMs (val : String) : Nat :=
  let (a, b) := splitFirst '.' val.toList
  digitsToNat a * 1000 + (match b with | some frac => digitsToNat frac | none => 0)

/-- The environment-determined data of one harness invocation: what the
external toolchain produced when `run_java_analysis` invoked it
(`app/xml_java/xml_java.py` lines 11-45).  `execMillis` is the measured
wall-clock duration of the run step in milliseconds. -/
structure HarnessOutcome where
  compileOk : Bool
  compileStderr : String
  execMillis : Nat
  stdout : String
  stderr : String
  gcLog : String
  timestamp : String
deriving DecidableEq, Repr

/-- The exception record parsed from stderr, as the spec's data model
views `parse_errors`' result: absent when `error_type` is falsy. -/
structure ExcRecord where
  etype : String
  message : String
  stackFrames : List String
deriving DecidableEq, Repr

/-- The optional exception record of a run. -/
def exceptionOf (stderr_text : String) : Option ExcRecord :=
  let (et, msg, st) := parse_errors stderr_text
  if et.isEmpty then none
  else some ⟨⟨et⟩, ⟨msg⟩, st.map fun f => ⟨f⟩⟩

/-- The parsed telemetry aggregate of one run, with the fields the spec's
data model enumerates (`executionTimeSec` carried as exact
milliseconds). -/
structure Telemetry where
  execMillis : Nat
  gcEvents : List String
  jitMethods : List (String × Nat × Nat)
  exception : Option ExcRecord
  threads : Nat
  timestamp : String
deriving DecidableEq, Repr

/-- The parse of one harness outcome into the telemetry aggregate: GC
events from the log, JIT methods and the `"Thread-"` occurrence count
from stdout, the exception record from stderr. -/
def telemetry_of (o : HarnessOutcome) : Telemetry :=
  ⟨o.execMillis, gc_events_of o.gcLog, parse_jit_methods o.stdout,
    exceptionOf o.stderr, countSub "Thread-".toList o.stdout.toList, o.timestamp⟩

/-- The document (XML) form written by `app/xml_java/xml_java.py` lines
48-58: the children of `executionMetrics`, in order.  Every child is a
rendered scalar: the time as a 3-fraction-digit decimal string and the
three structural fields as bare counts. -/
structure Document where
  executionTimeSec : String
  gcEvents : Nat
  jitCompiledMethods : Nat
  errors : Nat
  timestamp : String
  threadsAtivas : Nat
deriving DecidableEq, Repr

/-- Serialization of a telemetry aggregate into the document form
(`app/xml_java/xml_java.py` lines 48-58): `gcEvents`,
`jitCompiledMethods` and `errors` are written as counts only. -/
def toDocumentForm (t : Telemetry) : Document :=
  ⟨format3 t.execMillis, t.gcEvents.length, t.jitMethods.length,
    (if t.exception.isSome then 1 else 0), t.timestamp, t.threads⟩

/-- `run_java_analysis` (`app/xml_java/xml_java.py` lines 11-65): a
failed compile raises `RuntimeError(f"Erro na compilação: {stderr}")`;
otherwise the run's metrics document is produced. -/
def run_java_analysis (o : HarnessOutcome) : Except String Document :=
  if o.compileOk then .ok (toDocumentForm (telemetry_of o))
  else .error ("Erro na compilação: " ++ o.compileStderr)

/-- `test_execution_time` (`backup/app/client.py` lines 194-212): run the
analysis, read `executionTimeSec` back from the document (the element is
always present on success) and convert to milliseconds.  An uncaught
`RuntimeError` from the analysis propagates. -/
def test_execution_time (o : HarnessOutcome) : Except String (Nat × Document) :=
  match run_java_analysis o with
  | .error e => .error e
  | .ok doc => .ok (parseExecMs doc.executionTimeSec, doc)

/-- The benchmarking loop of `validate_code` (`backup/app/client.py`
lines 168-180): candidates are tried in order and an exception raised for
any candidate aborts the loop (there is no handler). -/
def collectTimes : List HarnessOutcome → Except String (List Nat)
  | [] => .ok []
  | o :: rest =>
    match test_execution_time o with
    | .error e => .error e
    | .ok (t, _) =>
      match collectTimes rest with
      | .error e => .error e
      | .ok ts => .ok (t :: ts)

/-- Python `min(xs, key=...)` over `(ordinal, time)` pairs: the first
element whose time is strictly smaller than every earlier one wins. -/
def minFirst : List (Nat × Nat) → Option (Nat × Nat)
  | [] => none
  | x :: rest =>
    rest.foldl (fun best y => if y.2 < best.2 then y else best) x |> some

/-- `validate_code` (`backup/app/client.py` lines 165-187): benchmark
every candidate, then select the minimum measured time, earliest first on
exact ties.  Candidates are identified by their ordinal (the code derives
the file path `TestHardCode{i+1}.java` injectively from it).  `min` on an
empty sequence raises `ValueError`. -/
def validate_code (cands : List HarnessOutcome) : Except String (Nat × Nat) :=
  match collectTimes cands with
  | .error e => .error e
  | .ok ts =>
    match minFirst ts.enum with
    | some best => .ok best
    | none => .error "ValueError: min() arg is an empty sequence"

/-- The session verdict of the decision step. -/
inductive Verdict where
  | Conclusive
  | NonConclusive
deriving DecidableEq, Repr

/-- `conclusive_agent` (`backup/app/client.py` lines 215-222): run
`validate_code`, then the verdict is conclusive iff the selected best
time is strictly below the limit. -/
def conclusive_agent (cands : List HarnessOutcome) (timeLimitMs : Nat) :
    Except String (Nat × Nat × Verdict) :=
  match validate_code cands with
  | .error e => .error e
  | .ok (i, t) =>
    .ok (i, t, if t < timeLimitMs then .Conclusive else .NonConclusive)

/-- The temporary GC-log path used by the `invocation`-th harness call
(`app/xml_java/xml_java.py` line 18, `csv/csv_generator.py` line 30):
`os.path.join(tempfile.gettempdir(), "gc.log")`.  The source computes the
path from no per-invocation datum; the invocation ordinal is threaded
here only so that per-invocation properties can be stated. -/
def gcLogPath (tmpdir : String) (_invocation : Nat) : String :=
  tmpdir ++ "/gc.log"

/-- The harness clears the GC log by delete-before-write
(`app/xml_java/xml_java.py` lines 18-19). -/
def gcLogDeleteBeforeWrite : Bool := true

/-! ## Statement-level derived definitions -/

/-- The stripped `"at "`-prefixed lines of a line list, in order: the
frames `parse_errors` appends while scanning those lines. -/
def atFrames (lines : List (List Char)) : List (List Char) :=
  lines.filterMap fun l =>
    if atMarker.isPrefixOf (pyStrip l) then some (pyStrip l) else none

/-- The `error_type` a header line establishes: the stripped text before
its first colon. -/
def headerType (line : List Char) : List Char :=
  pyStrip (splitFirst ':' line).1

/-- The `message` a header line establishes: the stripped text after its
first colon, or `""` when the line has no colon. -/
def headerMsg (line : List Char) : List Char :=
  match (splitFirst ':' line).2 with
  | some t => pyStrip t
  | none => []

/-- The non-blank lines of a GC log: the lines whose stripped form is
non-empty. -/
def nonBlankLines (log : String) : List (List Char) :=
  (pySplitlines log.toList).filter fun l => !(pyStrip l).isEmpty

/-! ## Lemmas about the regex pieces -/

theorem all_of_take_le_takeWhile (cls : Char → Bool) :
    ∀ (cs : List Char) (k : Nat), k ≤ (cs.takeWhile cls).length →
      ∀ c ∈ cs.take k, cls c = true := by
  intro cs
  induction cs with
  | nil => intro k _ c hc; simp at hc
  | cons a t ih =>
    intro k hk c hc
    by_cases ha : cls a = true
    · cases k with
      | zero => simp at hc
      | succ k' =>
        simp only [List.take_succ_cons, List.mem_cons] at hc
        rcases hc with rfl | hc
        · exact ha
        · refine ih k' ?_ c hc
          simpa [List.takeWhile_cons, ha] using hk
    · simp only [List.takeWhile_cons, Bool.not_eq_true] at ha ⊢
      rw [List.takeWhile_cons] at hk
      simp [ha] at hk
      subst hk
      simp at hc

theorem takeWhile_append_all (cls : Char → Bool) (a b : List Char)
    (h : ∀ c ∈ a, cls c = true) :
    (a ++ b).takeWhile cls = a ++ b.takeWhile cls := by
  induction a with
  | nil => simp
  | cons x t ih =>
    have hx : cls x = true := h x (by simp)
    simp only [List.cons_append, List.takeWhile_cons, hx, if_true]
    rw [ih fun c hc => h c (by simp [hc])]

theorem mem_splitsStar {cls : Char → Bool} {cs : List Char}
    {p : List Char × List Char} (h : p ∈ splitsStar cls cs) :
    p.1 ++ p.2 = cs ∧ ∀ c ∈ p.1, cls c = true := by
  simp only [splitsStar, List.mem_map, List.mem_reverse, List.mem_range] at h
  obtain ⟨k, hk, rfl⟩ := h
  exact ⟨List.take_append_drop k cs,
    all_of_take_le_takeWhile cls cs k (by omega)⟩

theorem splitsStar_intro (cls : Char → Bool) (a b : List Char)
    (h : ∀ c ∈ a, cls c = true) :
    (a, b) ∈ splitsStar cls (a ++ b) := by
  simp only [splitsStar, List.mem_map, List.mem_reverse, List.mem_range]
  refine ⟨a.length, ?_, ?_⟩
  · rw [takeWhile_append_all cls a b h]
    simp only [List.length_append]
    omega
  · rw [List.take_left, List.drop_left]

theorem mem_splitsPlus {cls : Char → Bool} {cs : List Char}
    {p : List Char × List Char} (h : p ∈ splitsPlus cls cs) :
    p.1 ++ p.2 = cs ∧ p.1 ≠ [] ∧ ∀ c ∈ p.1, cls c = true := by
  simp only [splitsPlus, List.mem_filter, Bool.not_eq_true',
    List.isEmpty_eq_false_iff_exists_mem] at h
  obtain ⟨hmem, hne⟩ := h
  obtain ⟨h1, h2⟩ := mem_splitsStar hmem
  refine ⟨h1, ?_, h2⟩
  intro hnil
  rw [hnil] at hne
  simp at hne

theorem splitsPlus_intro (cls : Char → Bool) (a b : List Char)
    (hne : a ≠ []) (h : ∀ c ∈ a, cls c = true) :
    (a, b) ∈ splitsPlus cls (a ++ b) := by
  simp only [splitsPlus, List.mem_filter]
  refine ⟨splitsStar_intro cls a b h, ?_⟩
  simpa [List.isEmpty_iff]

/-- Every string matched by the full JIT compilation-line regex is also
matched by the program-output filter regex `^\s*\d+\s`: both require
optional whitespace, then at least one digit, then a whitespace
character. -/
theorem pcMatch_of_jitCand_ne_nil {cs : List Char} (h : jitCand cs ≠ []) :
    pcMatch cs = true := by
  obtain ⟨g, hg⟩ := List.exists_mem_of_ne_nil _ h
  simp only [jitCand, List.mem_flatMap, List.mem_map] at hg
  obtain ⟨p0, hp0, p1, hp1, p2, hp2, -⟩ := hg
  obtain ⟨e0, a0⟩ := mem_splitsStar hp0
  obtain ⟨e1, n1, a1⟩ := mem_splitsPlus hp1
  obtain ⟨e2, n2, a2⟩ := mem_splitsPlus hp2
  have hmem : ∃ r, r ∈ pcCand cs := by
    cases hc : p2.1 with
    | nil => exact absurd hc n2
    | cons d ds =>
      refine ⟨ds ++ p2.2, ?_⟩
      simp only [pcCand, List.mem_flatMap]
      refine ⟨(p0.1, p0.2), ?_, (p1.1, p1.2), ?_, ?_⟩
      · rw [← e0]; exact splitsStar_intro _ _ _ a0
      · rw [← e1]; exact splitsPlus_intro _ _ _ n1 a1
      · have : p1.2 = d :: (ds ++ p2.2) := by
          rw [← e2, hc]; simp
        rw [this]
        have hd : isPySpace d = true := a2 d (by simp [hc])
        simp [hd]
  obtain ⟨r, hr⟩ := hmem
  have : pcCand cs ≠ [] := List.ne_nil_of_mem hr
  simpa [pcMatch, List.isEmpty_iff]

/-! ## Lemmas about the JIT methods dict and its tabular form -/

theorem keys_addEvent (acc : List (String × List JitEvent)) (k : String) (e : JitEvent) :
    (addEvent acc k e).map Prod.fst =
      if k ∈ acc.map Prod.fst then acc.map Prod.fst
      else acc.map Prod.fst ++ [k] := by
  induction acc with
  | nil => simp [addEvent]
  | cons p rest ih =>
    obtain ⟨k', es⟩ := p
    by_cases hk : k' = k
    · subst hk
      simp [addEvent]
    · simp only [addEvent, hk, if_false, List.map_cons, ih]
      by_cases hmem : k ∈ rest.map Prod.fst
      · simp [hmem, hk]
      · simp [hmem, hk, Ne.symm hk]

theorem nodup_keys_addEvent {acc : List (String × List JitEvent)}
    (h : (acc.map Prod.fst).Nodup) (k : String) (e : JitEvent) :
    ((addEvent acc k e).map Prod.fst).Nodup := by
  rw [keys_addEvent]
  by_cases hmem : k ∈ acc.map Prod.fst
  · simpa [hmem]
  · simp [hmem, List.nodup_append, h]

theorem nodup_keys_foldl (lines : List (List Char)) :
    ∀ acc : List (String × List JitEvent), (acc.map Prod.fst).Nodup →
      ((lines.foldl methodsStep acc).map Prod.fst).Nodup := by
  induction lines with
  | nil => intro acc h; simpa
  | cons l rest ih =>
    intro acc h
    simp only [List.foldl_cons]
    refine ih _ ?_
    unfold methodsStep
    cases jitMatch (pyStrip l) with
    | none => exact h
    | some g => exact nodup_keys_addEvent h _ _

/-- The `methods` dict has pairwise-distinct method names. -/
theorem nodup_keys_methodsOf (stdout_text : String) :
    ((methodsOf stdout_text).map Prod.fst).Nodup :=
  nodup_keys_foldl _ [] (by simp)

theorem method_rowOf (m : String) (es : List JitEvent) (e : JitEvent) :
    (rowOf m es e).method = m := rfl

theorem mem_tableOf {ms : List (String × List JitEvent)} {row : JitRow}
    (h : row ∈ tableOf ms) :
    ∃ p ∈ ms, ∃ e ∈ p.2, row = rowOf p.1 p.2 e := by
  simp only [tableOf, List.mem_flatMap, List.mem_map] at h
  obtain ⟨p, hp, e, he, rfl⟩ := h
  exact ⟨p, hp, e, he, rfl⟩

theorem method_mem_keys_of_mem_tableOf {ms : List (String × List JitEvent)}
    {row : JitRow} (h : row ∈ tableOf ms) : row.method ∈ ms.map Prod.fst := by
  obtain ⟨p, hp, e, -, rfl⟩ := mem_tableOf h
  exact List.mem_map.mpr ⟨p, hp, rfl⟩

/-- With pairwise-distinct method names, the table rows carrying method
`m` are exactly the rows generated from `m`'s own event group. -/
theorem filter_tableOf :
    ∀ (ms : List (String × List JitEvent)), (ms.map Prod.fst).Nodup →
      ∀ (m : String) (es : List JitEvent), (m, es) ∈ ms →
        (tableOf ms).filter (fun r => r.method == m) = es.map (rowOf m es) := by
  intro ms
  induction ms with
  | nil => intro _ m es hmem; simp at hmem
  | cons p rest ih =>
    intro hnd m es hmem
    obtain ⟨k, fs⟩ := p
    have htab : tableOf ((k, fs) :: rest) =
        fs.map (rowOf k fs) ++ tableOf rest := by
      simp [tableOf]
    rw [htab, List.filter_append]
    have hnd' : (k :: rest.map Prod.fst).Nodup := by simpa using hnd
    have hknod : k ∉ rest.map Prod.fst := (List.nodup_cons.mp hnd').1
    rcases List.mem_cons.mp hmem with heq | hmem'
    · rw [Prod.mk.injEq] at heq
      obtain ⟨rfl, rfl⟩ := heq
      have h1 : (es.map (rowOf m es)).filter (fun r => r.method == m) =
          es.map (rowOf m es) := by
        apply List.filter_eq_self.mpr
        intro r hr
        obtain ⟨e, -, rfl⟩ := List.mem_map.mp hr
        simp [method_rowOf]
      have h2 : (tableOf rest).filter (fun r => r.method == m) = [] := by
        apply List.filter_eq_nil_iff.mpr
        intro r hr
        have := method_mem_keys_of_mem_tableOf hr
        simp only [beq_iff_eq]
        intro hcontra
        rw [hcontra] at this
        exact hknod this
      rw [h1, h2, List.append_nil]
    · have hm : m ∈ rest.map Prod.fst := List.mem_map.mpr ⟨(m, es), hmem', rfl⟩
      have hkm : k ≠ m := by
        intro hcontra
        rw [hcontra] at hknod
        exact hknod hm
      have h1 : (fs.map (rowOf k fs)).filter (fun r => r.method == m) = [] := by
        apply List.filter_eq_nil_iff.mpr
        intro r hr
        obtain ⟨e, -, rfl⟩ := List.mem_map.mp hr
        simpa [method_rowOf] using hkm
      have h2 := ih (List.Nodup.of_cons hnd') m es hmem'
      rw [h1, h2, List.nil_append]

/-! ## Lemmas about the error parser -/

/-- Scanning lines that never contain `"Exception"` leaves `error_type`
and `message` untouched and appends exactly the stripped `"at "`-prefixed
lines as frames. -/
theorem foldl_parseErrorsStep_no_exc (lines : List (List Char)) :
    ∀ st : ErrState, (∀ l ∈ lines, containsSeq excMarker l = false) →
      lines.foldl parseErrorsStep st =
        ⟨st.et, st.msg, st.frames ++ atFrames lines⟩ := by
  induction lines with
  | nil => intro st _; simp [atFrames]
  | cons l rest ih =>
    intro st h
    have hl : containsSeq excMarker l = false := h l (by simp)
    have hrest : ∀ l' ∈ rest, containsSeq excMarker l' = false :=
      fun l' h' => h l' (by simp [h'])
    simp only [List.foldl_cons]
    by_cases hat : atMarker.isPrefixOf (pyStrip l)
    · rw [show parseErrorsStep st l =
          ⟨st.et, st.msg, st.frames ++ [pyStrip l]⟩ by
        simp [parseErrorsStep, hl, hat]]
      rw [ih _ hrest]
      have hat' : atMarker <+: pyStrip l := List.isPrefixOf_iff_prefix.mp hat
      simp [atFrames, hat', List.filterMap_cons]
    · rw [show parseErrorsStep st l = st by
        simp [parseErrorsStep, hl, hat]]
      rw [ih _ hrest]
      have hat' : ¬ atMarker <+: pyStrip l := fun hc => hat ( List.isPrefixOf_iff_prefix.mpr hc)
      simp [atFrames, hat', List.filterMap_cons]

/-- Once `error_type` is a non-empty string, scanning further lines never
changes `error_type` or `message` (later exception headers are ignored)
and appends exactly the stripped `"at "`-prefixed lines — whichever
exception block they belong to. -/
theorem foldl_parseErrorsStep_set (lines : List (List Char)) :
    ∀ st : ErrState, st.et ≠ [] →
      lines.foldl parseErrorsStep st =
        ⟨st.et, st.msg, st.frames ++ atFrames lines⟩ := by
  induction lines with
  | nil => intro st _; simp [atFrames]
  | cons l rest ih =>
    intro st hset
    have hne : st.et.isEmpty = false := by
      simpa [List.isEmpty_iff] using hset
    simp only [List.foldl_cons]
    by_cases hat : atMarker.isPrefixOf (pyStrip l)
    · rw [show parseErrorsStep st l =
          ⟨st.et, st.msg, st.frames ++ [pyStrip l]⟩ by
        simp [parseErrorsStep, hne, hat]]
      rw [ih _ (by simpa using hset)]
      have hat' : atMarker <+: pyStrip l := List.isPrefixOf_iff_prefix.mp hat
      simp [atFrames, hat', List.filterMap_cons]
    · rw [show parseErrorsStep st l = st by
        simp [parseErrorsStep, hne, hat]]
      rw [ih _ hset]
      have hat' : ¬ atMarker <+: pyStrip l := fun hc => hat ( List.isPrefixOf_iff_prefix.mpr hc)
      simp [atFrames, hat', List.filterMap_cons]

/-! ## Lemmas about numbers and their decimal rendering -/

theorem digitsToNat_append_singleton (xs : List Char) (c : Char) :
    digitsToNat (xs ++ [c]) = digitsToNat xs * 10 + (c.toNat - 48) := by
  simp [digitsToNat, List.foldl_append]

theorem digitChar_toNat {d : Nat} (h : d < 10) :
    (Nat.digitChar d).toNat - 48 = d := by
  interval_cases d <;> decide

theorem digitChar_ne_dot {d : Nat} (h : d < 10) : Nat.digitChar d ≠ '.' := by
  interval_cases d <;> decide

theorem digitsToNat_natDigitsAux :
    ∀ (fuel n : Nat), n < fuel → digitsToNat (natDigitsAux fuel n) = n := by
  intro fuel
  induction fuel with
  | zero => intro n h; omega
  | succ f ih =>
    intro n h
    unfold natDigitsAux
    by_cases h10 : n < 10
    · simp only [h10, if_true]
      have := digitChar_toNat h10
      simp [digitsToNat]
      omega
    · simp only [h10, if_false]
      rw [digitsToNat_append_singleton, ih (n / 10) (by omega),
        digitChar_toNat (Nat.mod_lt n (by omega))]
      omega

theorem digitsToNat_natDigits (n : Nat) : digitsToNat (natDigits n) = n :=
  digitsToNat_natDigitsAux (n + 1) n (by omega)

theorem natDigitsAux_ne_dot :
    ∀ (fuel n : Nat), ∀ c ∈ natDigitsAux fuel n, c ≠ '.' := by
  intro fuel
  induction fuel with
  | zero => intro n c hc; simp [natDigitsAux] at hc
  | succ f ih =>
    intro n c hc
    unfold natDigitsAux at hc
    by_cases h10 : n < 10
    · simp only [h10, if_true, List.mem_singleton] at hc
      subst hc
      exact digitChar_ne_dot h10
    · simp only [h10, if_false, List.mem_append, List.mem_singleton] at hc
      rcases hc with hc | hc
      · exact ih _ c hc
      · subst hc
        exact digitChar_ne_dot (Nat.mod_lt n (by omega))


theorem natDigits_ne_dot (n : Nat) : ∀ c ∈ natDigits n, c ≠ '.' :=
  natDigitsAux_ne_dot (n + 1) n

theorem splitFirst_append (sep : Char) (a b : List Char)
    (h : ∀ c ∈ a, c ≠ sep) :
    splitFirst sep (a ++ sep :: b) = (a, some b) := by
  induction a with
  | nil => simp [splitFirst]
  | cons x t ih =>
    have hx : x ≠ sep := h x (by simp)
    simp only [List.cons_append, splitFirst, hx, if_false, List.append_eq]
    rw [ih fun c hc => h c (by simp [hc])]

theorem digitsToNat_cons_zero (xs : List Char) :
    digitsToNat ('0' :: xs) = digitsToNat xs := by
  simp [digitsToNat]

/-- The millisecond measurement survives the document round trip: the
3-fraction-digit decimal rendering of `run_java_analysis` composed with
the `int(float(val) * 1000)` read-back of `test_execution_time` is the
identity (under the exact decimal model of the two float operations). -/
theorem parseExecMs_format3 (m : Nat) : parseExecMs (format3 m) = m := by
  unfold parseExecMs format3
  have hdot : ∀ c ∈ natDigits (m / 1000), c ≠ '.' := natDigits_ne_dot _
  have hfrac : digitsToNat
      (if m % 1000 < 10 then '0' :: '0' :: natDigits (m % 1000)
       else if m % 1000 < 100 then '0' :: natDigits (m % 1000)
       else natDigits (m % 1000)) = m % 1000 := by
    split
    · rw [digitsToNat_cons_zero, digitsToNat_cons_zero, digitsToNat_natDigits]
    · split
      · rw [digitsToNat_cons_zero, digitsToNat_natDigits]
      · rw [digitsToNat_natDigits]
  rw [show (String.mk (natDigits (m / 1000) ++ '.' ::
      (if m % 1000 < 10 then '0' :: '0' :: natDigits (m % 1000)
       else if m % 1000 < 100 then '0' :: natDigits (m % 1000)
       else natDigits (m % 1000)))).toList =
      natDigits (m / 1000) ++ '.' ::
      (if m % 1000 < 10 then '0' :: '0' :: natDigits (m % 1000)
       else if m % 1000 < 100 then '0' :: natDigits (m % 1000)
       else natDigits (m % 1000)) from rfl]
  rw [splitFirst_append '.' _ _ hdot]
  simp only [digitsToNat_natDigits, hfrac]
  omega

/-! ## Lemmas about the evaluation loop -/

/-- A successful harness invocation yields the document of the parsed
telemetry, and `test_execution_time` succeeds on it. -/
theorem test_execution_time_ok {o : HarnessOutcome} (h : o.compileOk = true) :
    test_execution_time o = .ok (o.execMillis, toDocumentForm (telemetry_of o)) := by
  simp [test_execution_time, run_java_analysis, h, toDocumentForm,
    telemetry_of, parseExecMs_format3]

/-- The benchmarking loop aborts at the first candidate whose compile
step fails, propagating its `RuntimeError`. -/
theorem collectTimes_append_error (bad : HarnessOutcome) (post : List HarnessOutcome)
    (hbad : bad.compileOk = false) :
    ∀ pre : List HarnessOutcome, (∀ o ∈ pre, o.compileOk = true) →
      collectTimes (pre ++ bad :: post) =
        .error ("Erro na compilação: " ++ bad.compileStderr) := by
  intro pre
  induction pre with
  | nil =>
    intro _
    simp [collectTimes, test_execution_time, run_java_analysis, hbad]
  | cons o rest ih =>
    intro h
    have ho : o.compileOk = true := h o (by simp)
    have hrest := ih fun o' h' => h o' (by simp [h'])
    simp only [List.cons_append, collectTimes, test_execution_time_ok ho,
      List.append_eq, hrest]

/-! ## Lemmas about the GC-event read-back -/

theorem filterMap_strip (ls : List (List Char)) :
    (ls.filterMap fun l =>
      if (pyStrip l).isEmpty then none else some ((⟨pyStrip l⟩ : String))) =
    (ls.filter fun l => !(pyStrip l).isEmpty).map fun l => (⟨pyStrip l⟩ : String) := by
  induction ls with
  | nil => simp
  | cons l rest ih =>
    rw [List.filterMap_cons, List.filter_cons]
    cases hb : (pyStrip l).isEmpty
    · rw [ih]
      simp
    · rw [ih]
      simp

theorem gc_events_of_eq_map (log : String) :
    gc_events_of log = (nonBlankLines log).map fun l => (⟨pyStrip l⟩ : String) := by
  unfold gc_events_of nonBlankLines
  exact filterMap_strip _

/-! ## The claims -/

/-- C1: for the evaluation loop, given three candidates whose measured
execution times are 310 ms, 190 ms and 190 ms and a time limit of 200 ms,
the winner is the second candidate in input order (ordinal 1, the
earliest among the tied minimum, since Python's `min` replaces the
running best only on a strictly smaller key) and the verdict is
`Conclusive` because 190 < 200. -/
theorem eval_tie_breaks_to_earliest_and_concludes :
    conclusive_agent
      [⟨true, "", 310, "", "", "", ""⟩, ⟨true, "", 190, "", "", "", ""⟩,
       ⟨true, "", 190, "", "", "", ""⟩] 200 =
      .ok (1, 190, .Conclusive) := by
  rfl

/-- C2 counterexample: a candidate whose compile step fails is neither
assigned an effectively infinite rank key nor skipped — the
`RuntimeError` raised by `run_java_analysis` propagates out of
`validate_code`, so the session aborts before the remaining candidate
(which measures 190 ms) is ever considered and no winner exists. -/
theorem compile_failure_aborts_concretely :
    validate_code
      [⟨false, "boom", 0, "", "", "", ""⟩, ⟨true, "", 190, "", "", "", ""⟩] =
      .error "Erro na compilação: boom" := by
  rfl

/-- C2 amended: a candidate whose harness compile step fails makes the
whole evaluation loop abort with that candidate's compile error: the
remaining candidates are not benchmarked, no rank key (infinite or
otherwise) is assigned, and no winner is selected. -/
theorem compile_failure_aborts_session (pre post : List HarnessOutcome)
    (bad : HarnessOutcome) (hpre : ∀ o ∈ pre, o.compileOk = true)
    (hbad : bad.compileOk = false) :
    validate_code (pre ++ bad :: post) =
      .error ("Erro na compilação: " ++ bad.compileStderr) := by
  unfold validate_code
  rw [collectTimes_append_error bad post hbad pre hpre]

/-- C2 witness: the amended abort behaviour at a concrete session of
three candidates whose second fails to compile. -/
theorem compile_failure_aborts_session_witness :
    validate_code
      [⟨true, "", 190, "", "", "", ""⟩, ⟨false, "boom", 0, "", "", "", ""⟩,
       ⟨true, "", 310, "", "", "", ""⟩] =
      .error "Erro na compilação: boom" :=
  compile_failure_aborts_session
    [⟨true, "", 190, "", "", "", ""⟩] [⟨true, "", 310, "", "", "", ""⟩]
    ⟨false, "boom", 0, "", "", "", ""⟩ (by decide) (by decide)

/-- C3 counterexample: the stdout line `"123 foo"` does not match the JIT
line grammar, yet it does not appear in the preserved program output
either — the filter drops every line whose stripped form begins with
digits and a whitespace character, not only JIT-grammar lines. -/
theorem non_jit_numeric_line_dropped :
    jitMatch (pyStrip "123 foo".toList) = none ∧
    programOutputRows "123 foo" = [] := by
  decide

/-- C3 amended: a stdout line is preserved as program output exactly when
its stripped form does not match the prefix heuristic `^\s*\d+\s`; every
line matching the full JIT grammar also matches the heuristic (so no JIT
line ever appears in the program output), but the converse fails. -/
theorem program_output_complements_prefix_heuristic (s : String)
    (l : List Char) (cs : List Char) (hjit : jitMatch cs ≠ none) :
    (l ∈ prog_lines s ↔
      l ∈ pySplitlines s.toList ∧ pcMatch (pyStrip l) = false) ∧
    pcMatch cs = true := by
  constructor
  · simp [prog_lines, List.mem_filter]
  · apply pcMatch_of_jitCand_ne_nil
    intro hnil
    apply hjit
    simp [jitMatch, hnil]

/-- C3 witness: the amended statement at a concrete stdout, a concrete
preserved line and a concrete JIT-grammar line. -/
theorem program_output_complements_prefix_heuristic_witness :
    (("hello".toList ∈ prog_lines "hello\n 12 x" ↔
      "hello".toList ∈ pySplitlines "hello\n 12 x".toList ∧
      pcMatch (pyStrip "hello".toList) = false) ∧
     pcMatch "   134    3       3       java.lang.String::hashCode (55 bytes)".toList = true) :=
  program_output_complements_prefix_heuristic "hello\n 12 x" "hello".toList
    "   134    3       3       java.lang.String::hashCode (55 bytes)".toList
    (by decide)

/-- C4 counterexample: with two exception blocks on stderr, the frame
line of the SECOND block (`"at B.b(B.java:2)"`) is appended to the
record established by the first header — not discarded as the claim
states. -/
theorem second_block_frames_are_appended :
    parse_errors
      "java.lang.AException: x\nat A.a(A.java:1)\njava.lang.BException: y\n\tat B.b(B.java:2)" =
      ("java.lang.AException".toList, "x".toList,
        ["at A.a(A.java:1)".toList, "at B.b(B.java:2)".toList]) ∧
    "at B.b(B.java:2)".toList ∈
      (parse_errors
        "java.lang.AException: x\nat A.a(A.java:1)\njava.lang.BException: y\n\tat B.b(B.java:2)").2.2 := by
  decide

/-- C4 amended: the first line containing `"Exception"` establishes
`type` and `message` (and later headers cannot overwrite them once the
type is non-empty), but EVERY other line whose stripped form begins with
`"at "` — before the header, after it, and inside subsequent exception
blocks — is appended to the single captured record's stack frames. -/
theorem first_header_then_all_at_frames (pre post : List (List Char))
    (hdr : List Char)
    (hpre : ∀ l ∈ pre, containsSeq excMarker l = false)
    (hhdr : containsSeq excMarker hdr = true)
    (htype : headerType hdr ≠ []) :
    parseErrorsLines (pre ++ hdr :: post) =
      ⟨headerType hdr, headerMsg hdr, atFrames pre ++ atFrames post⟩ := by
  unfold parseErrorsLines
  rw [List.foldl_append]
  rw [foldl_parseErrorsStep_no_exc pre ⟨[], [], []⟩ hpre]
  simp only [List.foldl_cons]
  have hstep :
      parseErrorsStep ⟨[], [], [] ++ atFrames pre⟩ hdr =
        ⟨headerType hdr, headerMsg hdr, atFrames pre⟩ := by
    rcases hsp : splitFirst ':' hdr with ⟨p0, p1⟩
    simp only [parseErrorsStep, hhdr, List.isEmpty_nil, Bool.and_self,
      if_true, hsp, headerType, headerMsg]
    cases p1 <;> simp [hsp]
  rw [hstep]
  rw [foldl_parseErrorsStep_set post ⟨headerType hdr, headerMsg hdr, atFrames pre⟩ htype]

/-- C4 witness: the amended statement at a concrete stderr with a
pre-header frame line, a first header and a complete second exception
block. -/
theorem first_header_then_all_at_frames_witness :
    parseErrorsLines
      (["at Pre.p(Pre.java:0)".toList] ++ "java.lang.AException: x".toList ::
        ["at A.a(A.java:1)".toList, "java.lang.BException: y".toList,
         "at B.b(B.java:2)".toList]) =
      ⟨"java.lang.AException".toList, "x".toList,
        ["at Pre.p(Pre.java:0)".toList, "at A.a(A.java:1)".toList,
         "at B.b(B.java:2)".toList]⟩ :=
  first_header_then_all_at_frames
    ["at Pre.p(Pre.java:0)".toList] ["at A.a(A.java:1)".toList,
      "java.lang.BException: y".toList, "at B.b(B.java:2)".toList]
    "java.lang.AException: x".toList (by decide) (by decide) (by decide)

/-- C5: the stdout line
`"   134    3       3       java.lang.String::hashCode (55 bytes)"` is
parsed into exactly one compilation event keyed by the method name
`java.lang.String::hashCode`, with `bytecodeSize` 55 and a compilation
count of 1. -/
theorem example_line_one_event_55_bytes :
    methodsOf "   134    3       3       java.lang.String::hashCode (55 bytes)" =
      [("java.lang.String::hashCode", [⟨"134", "3", "55", ""⟩])] ∧
    parse_jit_methods "   134    3       3       java.lang.String::hashCode (55 bytes)" =
      [("java.lang.String::hashCode", 1, 55)] := by
  decide

/-- C6: in the `jit_compilations` table of any stdout, every row carrying
method `m` states as `compilations` exactly the number of the table's
rows for `m` and as `total_bytes` exactly the sum of the `bytes` values
over those rows. -/
theorem jit_row_aggregates_consistent (stdout_text : String) (m : String)
    (row : JitRow) (hrow : row ∈ jitTable stdout_text) (hm : row.method = m) :
    row.compilations =
      ((jitTable stdout_text).filter (fun r => r.method == m)).length ∧
    row.total_bytes =
      (((jitTable stdout_text).filter (fun r => r.method == m)).map
        (fun r => digitsToNat r.bytes.toList)).sum := by
  obtain ⟨p, hp, e, he, rfl⟩ := mem_tableOf hrow
  obtain ⟨k, es⟩ := p
  have hk : k = m := hm
  subst hk
  have hfil := filter_tableOf (methodsOf stdout_text)
    (nodup_keys_methodsOf stdout_text) k es hp
  unfold jitTable at hfil ⊢
  rw [hfil]
  constructor
  · simp [rowOf]
  · simp only [rowOf, List.map_map]
    have hcomp : ((fun r : JitRow => digitsToNat r.bytes.toList) ∘ rowOf k es) =
        fun ev : JitEvent => digitsToNat ev.bytes.toList := by
      funext ev
      rfl
    rw [hcomp]
    rfl

/-- C6 witness: the aggregate consistency at a concrete stdout with two
compilation events for the same method (10 + 5 bytes). -/
theorem jit_row_aggregates_consistent_witness :
    (⟨"M::a", 2, 15, "1", "3", "10", ""⟩ : JitRow).compilations =
      ((jitTable "1 3 M::a (10 bytes)\n2 3 M::a (5 bytes)").filter
        (fun r => r.method == "M::a")).length ∧
    (⟨"M::a", 2, 15, "1", "3", "10", ""⟩ : JitRow).total_bytes =
      (((jitTable "1 3 M::a (10 bytes)\n2 3 M::a (5 bytes)").filter
        (fun r => r.method == "M::a")).map
        (fun r => digitsToNat r.bytes.toList)).sum :=
  jit_row_aggregates_consistent "1 3 M::a (10 bytes)\n2 3 M::a (5 bytes)"
    "M::a" ⟨"M::a", 2, 15, "1", "3", "10", ""⟩ (by decide) (by decide)

/-- C7: for every GC log, the parsed event table has exactly one entry
per non-blank log line, in file order, and the entry at position `k`
carries sequence index `k` and the stripped `k`-th non-blank line; blank
lines produce no entry. -/
theorem gc_events_enumerate_non_blank_lines (log : String) :
    (gcTable log).length = (nonBlankLines log).length ∧
    ∀ k : Nat, (gcTable log)[k]? =
      ((nonBlankLines log)[k]?).map fun l => (k, (⟨pyStrip l⟩ : String)) := by
  have h := gc_events_of_eq_map log
  constructor
  · simp [gcTable, h]
  · intro k
    simp only [gcTable, h, List.getElem?_enum, List.getElem?_map, Option.map_map]
    rfl

/-- C8 counterexample: two distinct telemetry values (their GC event
sequences differ) serialize to the identical document, because the
document form records `gcEvents` only as a count — hence no function
`fromDocumentForm` can recover `t` from `toDocumentForm t` and the
round-trip claim fails. -/
theorem document_form_not_injective :
    toDocumentForm ⟨190, ["gc a", "gc b"], [], none, 0, "T"⟩ =
      toDocumentForm ⟨190, ["x", "y"], [], none, 0, "T"⟩ ∧
    (⟨190, ["gc a", "gc b"], [], none, 0, "T"⟩ : Telemetry) ≠
      (⟨190, ["x", "y"], [], none, 0, "T"⟩ : Telemetry) := by
  decide

/-- C8 amended: the document form is lossy, not lossless: it preserves
the execution time exactly (the millisecond measurement is recovered by
the `int(float(val) * 1000)` read-back, under the exact decimal model)
together with the COUNTS of GC events, JIT-compiled methods and errors,
the timestamp and the thread estimate — but not the underlying
sequences or records, so no inverse `fromDocumentForm` exists. -/
theorem document_form_preserves_time_and_counts (t : Telemetry) :
    parseExecMs (toDocumentForm t).executionTimeSec = t.execMillis ∧
    (toDocumentForm t).gcEvents = t.gcEvents.length ∧
    (toDocumentForm t).jitCompiledMethods = t.jitMethods.length ∧
    (toDocumentForm t).errors = (if t.exception.isSome then 1 else 0) ∧
    (toDocumentForm t).timestamp = t.timestamp ∧
    (toDocumentForm t).threadsAtivas = t.threads :=
  ⟨parseExecMs_format3 t.execMillis, rfl, rfl, rfl, rfl, rfl⟩

/-- C9 counterexample: two distinct harness invocations use the SAME
temporary GC-log path — the source computes the fixed
`gettempdir()/gc.log` with no per-invocation component. -/
theorem gc_log_path_collides :
    gcLogPath "/tmp" 0 = gcLogPath "/tmp" 1 ∧ (0 : Nat) ≠ 1 := by
  decide

/-- C9 amended: the harness directs the GC trace to one fixed path,
`os.path.join(tempfile.gettempdir(), "gc.log")`, for every invocation,
clearing it by delete-before-write; the paths of any two invocations are
equal, so per-call uniqueness does not hold. -/
theorem gc_log_path_constant (tmpdir : String) (i j : Nat) :
    gcLogPath tmpdir i = gcLogPath tmpdir j ∧ gcLogDeleteBeforeWrite = true :=
  ⟨rfl, rfl⟩

/-- C10: when no stderr line contains `"Exception"`, the error parser
establishes no `error_type` (even when `"at "`-prefixed frame lines were
collected) and the errors table has zero data rows. -/
theorem no_exception_no_error_rows (stderr_text : String)
    (h : ∀ l ∈ pySplitlines stderr_text.toList,
      containsSeq excMarker l = false) :
    (parse_errors stderr_text).1 = [] ∧ errorsTable stderr_text = [] := by
  have hfold := foldl_parseErrorsStep_no_exc
    (pySplitlines stderr_text.toList) ⟨[], [], []⟩ h
  have hfe : parse_errors stderr_text =
      ([], [], atFrames (pySplitlines stderr_text.toList)) := by
    unfold parse_errors parseErrorsLines
    rw [hfold]
    rfl
  constructor
  · rw [hfe]
  · unfold errorsTable
    rw [hfe]
    rfl

/-- C10 witness: a concrete stderr consisting only of stack-frame lines
yields no error type and an empty errors table. -/
theorem no_exception_no_error_rows_witness :
    (parse_errors "at Foo.bar(Foo.java:10)\n\tat Foo.main(Foo.java:5)").1 = [] ∧
    errorsTable "at Foo.bar(Foo.java:10)\n\tat Foo.main(Foo.java:5)" = [] :=
  no_exception_no_error_rows "at Foo.bar(Foo.java:10)\n\tat Foo.main(Foo.java:5)"
    (by decide)

end CompileIQ
